import Mathlib

/-!
Verification of the single-domain web crawler (`crawler.py`) against its
natural-language specification.

The crawler is embedded shallowly:
* `netloc`, `urljoin` model the `urllib` helpers actually called by the code
  (restricted to the URL shapes the crawler handles);
* `is_same_domain`, `should_visit`, `is_duplicate_content`, `extract_links`,
  `visit_url` and the worker loop are translated line by line from
  `WebCrawler`;
* external collaborators (the HTTP fetcher, the HTML anchor parser, the
  SHA-256 digest) are parameters of the model;
* Python dynamic values that flow into `visited_urls` are modelled by `PyVal`,
  because `worker` passes the whole `(priority, url)` tuple returned by
  `url_queue.get()` to `visit_url`, so both strings (direct calls, as in the
  tests) and pairs (worker calls) reach the visited set;
* `queue.PriorityQueue` is modelled by a list together with `takeMin`, which
  removes a least element in the lexicographic `(priority, url)` order — the
  order `heapq` uses on `(float, str)` tuples;
* the queue-membership guard of the enqueue loop is embedded twice: `offer`
  reads it as the membership test it was meant to be, while `offerStep`
  models what the interpreter does with it — raise `TypeError`, since
  `queue.PriorityQueue` is not iterable.

Priorities 0.5 and 1 are exactly representable floats, so `Rat` models them
without rounding error.
-/

namespace Crawler

/-! ### Model of `urlparse().netloc` and `urljoin` from `urllib` -/

/-- Characters allowed in a URL scheme after the leading letter. -/
def isSchemeChar (c : Char) : Bool :=
  c.isAlphanum || c = '+' || c = '-' || c = '.'

/-- Split a character list at the first colon, if any. -/
def splitAtColon : List Char → Option (List Char × List Char)
  | [] => none
  | c :: cs =>
    if c = ':' then some ([], cs)
    else
      match splitAtColon cs with
      | some (a, b) => some (c :: a, b)
      | none => none

/-- A valid scheme is nonempty, starts with a letter, and uses scheme chars. -/
def validScheme : List Char → Bool
  | [] => false
  | c :: cs => c.isAlpha && (c :: cs).all isSchemeChar

/-- Drop a leading `scheme:` when present, as `urlparse` does. -/
def stripSchemeL (cs : List Char) : List Char :=
  match splitAtColon cs with
  | some (bef, aft) => if validScheme bef then aft else cs
  | none => cs

/-- `urlparse(url).netloc`: the authority component after `//`, up to the
first `/`, `?` or `#`; empty when the URL has no `//` part. -/
def netloc (url : String) : String :=
  match stripSchemeL url.data with
  | '/' :: '/' :: r => ⟨r.takeWhile (fun c => !(c = '/' || c = '?' || c = '#'))⟩
  | _ => ""

/-- Does the string carry a `scheme:` part? -/
def hasScheme (s : String) : Bool :=
  match splitAtColon s.data with
  | some (bef, _) => validScheme bef
  | none => false

/-- The scheme of a URL, or `""`. -/
def schemeOf (s : String) : String :=
  match splitAtColon s.data with
  | some (bef, _) => if validScheme bef then ⟨bef⟩ else ""
  | none => ""

/-- The path-query-fragment part following the authority. -/
def pathOf (s : String) : String :=
  match stripSchemeL s.data with
  | '/' :: '/' :: r => ⟨r.dropWhile (fun c => !(c = '/' || c = '?' || c = '#'))⟩
  | r => ⟨r⟩

/-- Remove the last path segment (everything after the final slash). -/
def dropLastSeg (cs : List Char) : List Char :=
  (cs.reverse.dropWhile (fun c => c ≠ '/')).reverse

/-- Model of `urllib.urljoin` restricted to the cases the crawler meets:
an absolute href is kept; a protocol-relative, root-relative or relative
href is resolved against the base URL. -/
def urljoin (base href : String) : String :=
  if href = "" then base
  else if hasScheme href then href
  else if href.startsWith ("//") then schemeOf base ++ ":" ++ href
  else if href.startsWith ("/") then schemeOf base ++ "://" ++ netloc base ++ href
  else
    let d := dropLastSeg (pathOf base).data
    schemeOf base ++ "://" ++ netloc base ++ (if d = [] then "/" else String.mk d) ++ href

/-! ### Model of `re.search` / `re.match` as used by the crawler -/

/-- Does `pat` occur as a contiguous run inside `s`?  The crawler's exclusion
patterns (`login`, `signin`, `signup`, `logout`) are literal strings, for
which `re.search` is exactly substring containment. -/
def hasInfixL (pat : List Char) : List Char → Bool
  | [] => pat.isEmpty
  | c :: cs => pat.isPrefixOf (c :: cs) || hasInfixL pat cs

/-- `re.search(pattern, url)` for the literal patterns this crawler uses. -/
def reSearch (pat s : String) : Bool :=
  hasInfixL pat.data s.data

/-- `\d*` followed by at most one final `/`. -/
def digitsSlash : List Char → Bool
  | [] => true
  | ['/'] => true
  | c :: cs => c.isDigit && digitsSlash cs

/-- `re.match(r"^https://monzo\.com/blog/page/\d+/?$", url)` as a Boolean:
the pagination-page shape that earns a link the priority 0.5. -/
def isPagination (url : String) : Bool :=
  url.startsWith ("https://monzo.com/blog/page/") &&
    (match (url.drop 28).data with
     | [] => false
     | c :: cs => c.isDigit && digitsSlash cs)

/-! ### The crawler state and the URL classifier -/

/-- Immutable configuration built by `WebCrawler.__init__`:
`base_domain = urlparse(start_url).netloc` and the exclusion patterns. -/
structure Config where
  base_domain : String
  exclude_patterns : List String
deriving DecidableEq

/-- `__init__`: derive the base domain from the start URL. -/
def mkConfig (start_url : String) (pats : List String) : Config :=
  ⟨netloc start_url, pats⟩

/-- `is_same_domain`: the URL's netloc equals the stored base domain. -/
def is_same_domain (base url : String) : Bool :=
  netloc url == base

/-- `should_visit`: false iff some exclusion pattern matches the URL. -/
def should_visit (pats : List String) (url : String) : Bool :=
  pats.all (fun p => !reSearch p url)

/-- The float 0.5 as an exact rational, built without normalization so that
kernel evaluation never meets `Nat.gcd`. -/
def half : Rat := ⟨1, 2, by decide, Nat.coprime_one_left 2⟩

/-- Priority score computed in `visit_url` for the links of page `url`:
0.5 when the page is a pagination page, else the default 1. -/
def priority_score (url : String) : Rat :=
  if isPagination url then half else 1

/-- A Python value that can reach `visited_urls`: a URL string (direct calls
to `visit_url`, as in the tests) or a `(priority, url)` tuple (the worker
passes `url_queue.get()` unmodified). -/
inductive PyVal where
  | s (v : String)
  | pair (p : Rat) (v : String)
deriving DecidableEq

/-- The URL string inside a `PyVal`. -/
def urlOf : PyVal → String
  | PyVal.s v => v
  | PyVal.pair _ v => v

/-- Mutable crawler state: `visited_urls`, `content_hashes`, `url_queue`.
Sets are lists with membership-guarded insertion; the priority queue is the
list of its `(priority, url)` entries. -/
structure CrawlState where
  visited : List PyVal
  hashes : List String
  queue : List (Rat × String)

/-- The URLs currently sitting in the queue: `[item[1] for item in url_queue]`. -/
def queueUrls (q : List (Rat × String)) : List String :=
  q.map Prod.snd

/-- `is_duplicate_content`: hash the content, test membership, insert when
absent — and return `True` on **both** branches, exactly as the source does
(the fresh-content branch ends in `return True` as well). -/
def is_duplicate_content (h : String → String) (hashes : List String)
    (content : String) : Bool × List String :=
  let hc := h content
  if hc ∈ hashes then (true, hashes)
  else (true, hashes ++ [hc])

/-- `extract_links`: join every anchor href against the base URL and keep it
iff it is same-domain and not excluded, in source order. -/
def extract_links (cfg : Config) (baseUrl : String) (hrefs : List String) :
    List String :=
  (hrefs.map (urljoin baseUrl)).filter
    (fun u => is_same_domain cfg.base_domain u && should_visit cfg.exclude_patterns u)

/-- The enqueue-loop body of `visit_url` (lines 106-114) read as intended:
put `(priority, link)` iff the link is not visited, same-domain, and not
already among the queued URLs.  This is an idealization: evaluating the
third conjunct actually raises `TypeError` (see `offerStep` for the faithful
version), so in the program this code can only ever no-op or crash.  The
idealized form is used inside `visit_url` because the branch calling it is
unreachable — `is_duplicate_content` always answers `true`, so the crawl
never extracts links — and every theorem about a crawl below concerns only
behavior on which the two readings agree. -/
def offer (cfg : Config) (st : CrawlState) (prio : Rat) (link : String) :
    CrawlState :=
  if PyVal.s link ∉ st.visited ∧
      is_same_domain cfg.base_domain link = true ∧
      link ∉ queueUrls st.queue then
    { st with queue := st.queue ++ [(prio, link)] }
  else st

/-- The enqueue-loop body of `visit_url` (lines 106-114) as Python actually
executes it.  The first two conjuncts of the guard short-circuit: a link
that is already visited or not same-domain is skipped.  When both pass,
Python evaluates `[item[1] for item in self.url_queue]` and raises
`TypeError` — `queue.PriorityQueue` is not iterable — so the guard never
completes, nothing is ever enqueued, and the error escapes `visit_url`
(the `try` catches only `requests.RequestException`) and kills the worker.
`Except.error ()` is that uncaught `TypeError`. -/
def offerStep (cfg : Config) (st : CrawlState) (link : String) :
    Except Unit CrawlState :=
  if PyVal.s link ∉ st.visited ∧ is_same_domain cfg.base_domain link = true then
    Except.error ()
  else Except.ok st

/-- `requests.get` on a queue item: a string is fetched through the oracle;
a `(priority, url)` tuple is stringified by `requests` into a schemeless
text, so the library raises `MissingSchema` (a `RequestException`) — the
fetch always fails. -/
def fetchItem (fetch : String → Option String) : PyVal → Option String
  | PyVal.s v => fetch v
  | PyVal.pair _ _ => none

/-- `visit_url`, translated line by line.  `h` is the SHA-256 oracle,
`fetch` the HTTP oracle (`none` = `RequestException`), `anchors` the
BeautifulSoup oracle mapping page content to its anchor hrefs.  A fetch
error is caught: the state produced before the `try` block is returned. -/
def visit_url (h : String → String) (fetch : String → Option String)
    (anchors : String → List String) (cfg : Config)
    (st : CrawlState) (item : PyVal) : CrawlState :=
  if item ∈ st.visited then st
  else
    let st1 : CrawlState := { st with visited := st.visited ++ [item] }
    match fetchItem fetch item with
    | none => st1
    | some content =>
      let res := is_duplicate_content h st1.hashes content
      let st2 : CrawlState := { st1 with hashes := res.2 }
      if res.1 then st2
      else
        let url := urlOf item
        let links := extract_links cfg url (anchors content)
        links.foldl (fun s l => offer cfg s (priority_score url) l) st2

/-! ### The priority queue (`queue.PriorityQueue` over `(float, str)`) -/

/-- Python string `<`: lexicographic comparison of code points, a shorter
strict prefix ranking first. -/
def ltChars : List Char → List Char → Bool
  | [], [] => false
  | [], _ :: _ => true
  | _ :: _, [] => false
  | a :: as, b :: bs =>
    if a.toNat < b.toNat then true
    else if b.toNat < a.toNat then false
    else ltChars as bs

/-- Python string `<=`. -/
def strLe (a b : String) : Bool :=
  ltChars a.data b.data || a == b

/-- The order `heapq` uses on `(priority, url)` tuples: lexicographic on the
priority and then on the URL string. -/
def entryLE (a b : Rat × String) : Prop :=
  a.1 < b.1 ∨ (a.1 = b.1 ∧ strLe a.2 b.2 = true)

instance (a b : Rat × String) : Decidable (entryLE a b) := by
  unfold entryLE
  exact inferInstance

/-- `url_queue.get()`: remove and return a least entry in the `entryLE`
order (what popping a binary heap of tuples returns), together with the
remaining entries. -/
def takeMin : List (Rat × String) → Option ((Rat × String) × List (Rat × String))
  | [] => none
  | x :: xs =>
    match takeMin xs with
    | none => some (x, [])
    | some (m, rest) => if entryLE x m then some (x, xs) else some (m, x :: rest)

/-- `worker`: loop while the queue is nonempty, `get()` an entry and pass it
— the whole tuple — to `visit_url`.  Fuel makes the recursion structural;
every claim about a finished crawl exhibits enough fuel. -/
def workerLoop (h : String → String) (fetch : String → Option String)
    (anchors : String → List String) (cfg : Config) :
    Nat → CrawlState → CrawlState
  | 0, st => st
  | Nat.succ fuel, st =>
    match takeMin st.queue with
    | none => st
    | some (e, rest) =>
      workerLoop h fetch anchors cfg fuel
        (visit_url h fetch anchors cfg { st with queue := rest } (PyVal.pair e.1 e.2))

/-- The state `__init__` leaves behind: empty visited and hash sets, and the
seed enqueued at priority 0.5 with no eligibility check. -/
def initState (start_url : String) : CrawlState :=
  ⟨[], [], [(half, start_url)]⟩

/-- A full single-worker crawl: build the configuration, enqueue the seed,
run the worker loop. -/
def crawl (h : String → String) (fetch : String → Option String)
    (anchors : String → List String) (start_url : String)
    (pats : List String) (fuel : Nat) : CrawlState :=
  workerLoop h fetch anchors (mkConfig start_url pats) fuel (initState start_url)

/-! ### Order lemmas for the heap order -/

theorem ltChars_trans {a b c : List Char} (hab : ltChars a b = true)
    (hbc : ltChars b c = true) : ltChars a c = true := by
  induction a generalizing b c with
  | nil =>
    cases b with
    | nil => simp [ltChars] at hab
    | cons y ys =>
      cases c with
      | nil => simp [ltChars] at hbc
      | cons z zs => simp [ltChars]
  | cons x xs ih =>
    cases b with
    | nil => simp [ltChars] at hab
    | cons y ys =>
      cases c with
      | nil => simp [ltChars] at hbc
      | cons z zs =>
        simp only [ltChars] at hab hbc ⊢
        split at hab
        · split at hbc
          · simp [show x.toNat < z.toNat by omega]
          · split at hbc
            · simp at hbc
            · simp [show x.toNat < z.toNat by omega]
        · split at hab
          · simp at hab
          · split at hbc
            · simp [show x.toNat < z.toNat by omega]
            · split at hbc
              · simp at hbc
              · have hxz : ¬ x.toNat < z.toNat := by omega
                have hzx : ¬ z.toNat < x.toNat := by omega
                simp only [hxz, if_false, hzx]
                exact ih hab hbc

theorem ltChars_conn {a b : List Char} (hab : ltChars a b = false)
    (hba : ltChars b a = false) : a = b := by
  induction a generalizing b with
  | nil =>
    cases b with
    | nil => rfl
    | cons y ys => simp [ltChars] at hab
  | cons x xs ih =>
    cases b with
    | nil => simp [ltChars] at hba
    | cons y ys =>
      simp only [ltChars] at hab hba
      split at hab
      · simp at hab
      · split at hab
        · split at hba
          · simp at hba
          · omega
        · have hxy : x.toNat = y.toNat := by omega
          have hx : x = y := Char.eq_of_val_eq (UInt32.ext hxy)
          subst hx
          simp only [Nat.lt_irrefl, if_false] at hba
          rw [ih hab hba]

theorem strLe_refl (a : String) : strLe a a = true := by
  simp [strLe]

theorem strLe_trans {a b c : String} (hab : strLe a b = true)
    (hbc : strLe b c = true) : strLe a c = true := by
  simp only [strLe, Bool.or_eq_true, beq_iff_eq] at hab hbc ⊢
  rcases hab with hab | hab
  · rcases hbc with hbc | hbc
    · exact Or.inl (ltChars_trans hab hbc)
    · subst hbc; exact Or.inl hab
  · subst hab; exact hbc

theorem strLe_total (a b : String) : strLe a b = true ∨ strLe b a = true := by
  simp only [strLe, Bool.or_eq_true, beq_iff_eq]
  cases hab : ltChars a.data b.data with
  | true => exact Or.inl (Or.inl rfl)
  | false =>
    cases hba : ltChars b.data a.data with
    | true => exact Or.inr (Or.inl rfl)
    | false =>
      have h := ltChars_conn hab hba
      exact Or.inl (Or.inr (String.ext h))

theorem entryLE_refl (a : Rat × String) : entryLE a a :=
  Or.inr ⟨rfl, strLe_refl a.2⟩

theorem entryLE_trans {a b c : Rat × String} (hab : entryLE a b)
    (hbc : entryLE b c) : entryLE a c := by
  rcases hab with hab | ⟨hab, hab'⟩
  · rcases hbc with hbc | ⟨hbc, _⟩
    · exact Or.inl (lt_trans hab hbc)
    · exact Or.inl (hbc ▸ hab)
  · rcases hbc with hbc | ⟨hbc, hbc'⟩
    · exact Or.inl (hab ▸ hbc)
    · exact Or.inr ⟨hab.trans hbc, strLe_trans hab' hbc'⟩

theorem entryLE_total (a b : Rat × String) : entryLE a b ∨ entryLE b a := by
  rcases lt_trichotomy a.1 b.1 with h | h | h
  · exact Or.inl (Or.inl h)
  · rcases strLe_total a.2 b.2 with h' | h'
    · exact Or.inl (Or.inr ⟨h, h'⟩)
    · exact Or.inr (Or.inr ⟨h.symm, h'⟩)
  · exact Or.inr (Or.inl h)

/-! ### Characterization of `takeMin` -/

theorem takeMin_eq_none {q : List (Rat × String)} :
    takeMin q = none ↔ q = [] := by
  cases q with
  | nil => simp [takeMin]
  | cons x xs =>
    simp only [takeMin]
    cases takeMin xs with
    | none => simp
    | some p =>
      obtain ⟨m, rest⟩ := p
      by_cases h : entryLE x m <;> simp [h]

/-- What `heapq` guarantees about a pop: the element is in the queue, it is
`entryLE`-least, and the queue splits as a permutation of it and the rest. -/
theorem takeMin_spec {q : List (Rat × String)} {e : Rat × String}
    {rest : List (Rat × String)} (h : takeMin q = some (e, rest)) :
    e ∈ q ∧ (∀ x ∈ q, entryLE e x) ∧ List.Perm q (e :: rest) := by
  induction q generalizing e rest with
  | nil => simp [takeMin] at h
  | cons x xs ih =>
    simp only [takeMin] at h
    cases hxs : takeMin xs with
    | none =>
      have hx : xs = [] := takeMin_eq_none.mp hxs
      subst hx
      have h' : some (x, ([] : List (Rat × String))) = some (e, rest) := by
        rw [hxs] at h
        exact h
      simp only [Option.some.injEq, Prod.mk.injEq] at h'
      obtain ⟨rfl, rfl⟩ := h'
      refine ⟨List.mem_singleton_self x, ?_, List.Perm.refl _⟩
      intro y hy
      rw [List.mem_singleton] at hy
      subst hy
      exact entryLE_refl y
    | some p =>
      obtain ⟨m, r⟩ := p
      have h' : (if entryLE x m then some (x, xs) else some (m, x :: r)) =
          some (e, rest) := by
        rw [hxs] at h
        exact h
      obtain ⟨hm, hmin, hperm⟩ := ih hxs
      by_cases hle : entryLE x m
      · rw [if_pos hle, Option.some_inj, Prod.mk.injEq] at h'
        obtain ⟨rfl, rfl⟩ := h'
        refine ⟨List.mem_cons_self _ _, ?_, List.Perm.refl _⟩
        intro y hy
        rcases List.mem_cons.mp hy with hy | hy
        · subst hy; exact entryLE_refl y
        · exact entryLE_trans hle (hmin y hy)
      · rw [if_neg hle, Option.some_inj, Prod.mk.injEq] at h'
        obtain ⟨rfl, rfl⟩ := h'
        have hxm : entryLE m x := by
          rcases entryLE_total x m with h' | h'
          · exact absurd h' hle
          · exact h'
        refine ⟨List.mem_cons_of_mem _ hm, ?_, ?_⟩
        · intro y hy
          rcases List.mem_cons.mp hy with hy | hy
          · subst hy; exact hxm
          · exact hmin y hy
        · exact (hperm.cons x).trans (List.Perm.swap m x r)

/-! ### Lemmas about `offer` and the enqueue loop of `visit_url` -/

theorem offer_visited (cfg : Config) (st : CrawlState) (p : Rat) (l : String) :
    (offer cfg st p l).visited = st.visited := by
  unfold offer
  split <;> rfl

theorem mem_queueUrls_offer (cfg : Config) (st : CrawlState) (p : Rat)
    (l v : String) :
    v ∈ queueUrls (offer cfg st p l).queue ↔
      v ∈ queueUrls st.queue ∨
        (v = l ∧ PyVal.s l ∉ st.visited ∧
          is_same_domain cfg.base_domain l = true ∧ l ∉ queueUrls st.queue) := by
  unfold offer
  split_ifs with h
  · simp only [queueUrls, List.map_append, List.mem_append, List.map_cons,
      List.map_nil, List.mem_singleton]
    constructor
    · rintro (hv | hv)
      · exact Or.inl hv
      · exact Or.inr ⟨hv, h⟩
    · rintro (hv | ⟨hv, _⟩)
      · exact Or.inl hv
      · exact Or.inr hv
  · constructor
    · exact Or.inl
    · rintro (hv | ⟨rfl, h1, h2, h3⟩)
      · exact hv
      · exact absurd ⟨h1, h2, h3⟩ h

theorem mem_extract_links (cfg : Config) (b : String) (hrefs : List String)
    (v : String) :
    v ∈ extract_links cfg b hrefs ↔
      v ∈ hrefs.map (urljoin b) ∧
        is_same_domain cfg.base_domain v = true ∧
        should_visit cfg.exclude_patterns v = true := by
  simp [extract_links, List.mem_filter, Bool.and_eq_true, and_assoc]

/-! ### A generic invariant preserved by the crawl -/

/-- `G` holds for every URL sitting in the queue and for every URL recorded in
the visited set, whether it was recorded as a bare string or inside a
`(priority, url)` tuple. -/
def GoodState (G : String → Bool) (st : CrawlState) : Prop :=
  (∀ u ∈ queueUrls st.queue, G u = true) ∧
  (∀ p u, PyVal.pair p u ∈ st.visited → G u = true) ∧
  (∀ u, PyVal.s u ∈ st.visited → G u = true)

theorem offer_good {G : String → Bool} (cfg : Config) (st : CrawlState)
    (p : Rat) (l : String) (hl : G l = true) (hst : GoodState G st) :
    GoodState G (offer cfg st p l) := by
  obtain ⟨hq, hp, hs⟩ := hst
  refine ⟨?_, ?_, ?_⟩
  · intro u hu
    rcases (mem_queueUrls_offer cfg st p l u).mp hu with hu | ⟨rfl, _⟩
    · exact hq u hu
    · exact hl
  · intro q u hu
    rw [offer_visited] at hu
    exact hp q u hu
  · intro u hu
    rw [offer_visited] at hu
    exact hs u hu

theorem foldl_offer_good {G : String → Bool} (cfg : Config) (p : Rat)
    (links : List String) (st : CrawlState)
    (hls : ∀ l ∈ links, G l = true) (hst : GoodState G st) :
    GoodState G (links.foldl (fun s l => offer cfg s p l) st) := by
  induction links generalizing st with
  | nil => exact hst
  | cons l rest ih =>
    rw [List.foldl_cons]
    exact ih _ (fun x hx => hls x (List.mem_cons_of_mem l hx))
      (offer_good cfg st p l (hls l (List.mem_cons_self l rest)) hst)

theorem visit_url_good {G : String → Bool} (h : String → String)
    (fetch : String → Option String) (anchors : String → List String)
    (cfg : Config) (st : CrawlState) (item : PyVal)
    (hG : ∀ u, is_same_domain cfg.base_domain u = true →
      should_visit cfg.exclude_patterns u = true → G u = true)
    (hitem : G (urlOf item) = true) (hst : GoodState G st) :
    GoodState G (visit_url h fetch anchors cfg st item) := by
  obtain ⟨hq, hp, hs⟩ := hst
  have hst1 : GoodState G
      { st with visited := st.visited ++ [item] } := by
    refine ⟨hq, ?_, ?_⟩
    · intro q u hu
      rcases List.mem_append.mp hu with hu | hu
      · exact hp q u hu
      · rw [List.mem_singleton] at hu
        rw [← hu] at hitem
        exact hitem
    · intro u hu
      rcases List.mem_append.mp hu with hu | hu
      · exact hs u hu
      · rw [List.mem_singleton] at hu
        rw [← hu] at hitem
        exact hitem
  unfold visit_url
  split_ifs with hmem
  · exact ⟨hq, hp, hs⟩
  · cases hfetch : fetchItem fetch item with
    | none => exact hst1
    | some content =>
      simp only
      split_ifs with hdup
      · exact ⟨hst1.1, hst1.2.1, hst1.2.2⟩
      · refine foldl_offer_good cfg _ _ _ ?_ ⟨hst1.1, hst1.2.1, hst1.2.2⟩
        intro l hl
        rcases (mem_extract_links cfg _ _ l).mp hl with ⟨_, hsame, hvisit⟩
        exact hG l hsame hvisit

theorem workerLoop_good {G : String → Bool} (h : String → String)
    (fetch : String → Option String) (anchors : String → List String)
    (cfg : Config) (fuel : Nat) (st : CrawlState)
    (hG : ∀ u, is_same_domain cfg.base_domain u = true →
      should_visit cfg.exclude_patterns u = true → G u = true)
    (hst : GoodState G st) :
    GoodState G (workerLoop h fetch anchors cfg fuel st) := by
  induction fuel generalizing st with
  | zero => exact hst
  | succ fuel ih =>
    unfold workerLoop
    cases htake : takeMin st.queue with
    | none => exact hst
    | some p =>
      obtain ⟨e, rest⟩ := p
      obtain ⟨hmem, _, hperm⟩ := takeMin_spec htake
      have hrest : GoodState G { st with queue := rest } := by
        refine ⟨?_, hst.2.1, hst.2.2⟩
        intro u hu
        refine hst.1 u ?_
        simp only [queueUrls]
        rw [List.Perm.mem_iff (hperm.map Prod.snd)]
        exact List.mem_cons_of_mem _ hu
      have he2 : G e.2 = true := by
        refine hst.1 e.2 ?_
        exact List.mem_map_of_mem Prod.snd hmem
      exact ih _ (visit_url_good h fetch anchors cfg _ _ hG he2 hrest)

/-! ### Claim C1: duplicate offers -/

/-- C1 (code bug): the enqueue guard of `visit_url` never reaches its
queue-membership test.  As soon as a link is unvisited and same-domain —
precisely the situations in which the claim expects a no-op (the link is
already queued) or an insert (the link is fresh) — evaluating
`[item[1] for item in self.url_queue]` raises `TypeError`, because
`queue.PriorityQueue` is not iterable, and the uncaught error kills the
worker.  Concretely: re-offering the already-queued `https://example.com/a`
errors instead of being a no-op; offering the fresh eligible
`https://example.com/b` errors instead of enqueueing it; only a link
already in the visited set short-circuits into a genuine no-op. -/
theorem c1_offer_guard_raises_typeerror :
    offerStep (mkConfig ("https://example.com") [])
        ⟨[], [], [(1, "https://example.com/a")]⟩ ("https://example.com/a") =
      Except.error () ∧
    offerStep (mkConfig ("https://example.com") [])
        ⟨[], [], []⟩ ("https://example.com/b") = Except.error () ∧
    offerStep (mkConfig ("https://example.com") [])
        ⟨[PyVal.s ("https://example.com/a")], [], []⟩ ("https://example.com/a") =
      Except.ok ⟨[PyVal.s ("https://example.com/a")], [], []⟩ :=
  ⟨rfl, rfl, rfl⟩

/-! ### Claim C2: the content-deduplication check -/

/-- C2 (code bug): `is_duplicate_content` returns `True` on every call — the
fresh-content branch also ends in `return True` — so the first call with
novel content already reports a duplicate, contradicting the contract that
the first call reports the content as novel and only the second call as
duplicate. -/
theorem c2_is_duplicate_content_always_true (h : String → String)
    (hashes : List String) (c : String) :
    (is_duplicate_content h hashes c).1 = true := by
  simp only [is_duplicate_content]
  split <;> rfl

/-! ### Claim C3: dequeue order -/

/-- C3 counterexample: insert (1, "b") then (1, "a"); FIFO tie-breaking
would dequeue "b" first, but `get()` on the tuple heap returns (1, "a"),
the lexicographically smaller URL. -/
theorem c3_counterexample :
    takeMin [((1 : Rat), "b"), ((1 : Rat), "a")] =
      some (((1 : Rat), "a"), [((1 : Rat), "b")]) ∧ ("a" : String) ≠ "b" := by
  decide

/-- C3 amended: `get()` removes and returns an entry with the least
`(priority, url)` in lexicographic order — lowest numeric priority first and,
among equal priorities, the lexicographically smallest URL string (not the
first inserted) — and leaves a permutation of the remaining entries. -/
theorem c3_takeMin_returns_lex_least {q : List (Rat × String)}
    {e : Rat × String} {rest : List (Rat × String)}
    (h : takeMin q = some (e, rest)) :
    e ∈ q ∧ (∀ x ∈ q, entryLE e x) ∧ List.Perm q (e :: rest) :=
  takeMin_spec h

/-- C3 witness: the amended statement at the two-entry tie. -/
theorem c3_witness :
    ((1 : Rat), "a") ∈ [((1 : Rat), "b"), ((1 : Rat), "a")] ∧
    (∀ x ∈ [((1 : Rat), "b"), ((1 : Rat), "a")], entryLE ((1 : Rat), "a") x) ∧
    List.Perm [((1 : Rat), "b"), ((1 : Rat), "a")]
      (((1 : Rat), "a") :: [((1 : Rat), "b")]) :=
  c3_takeMin_returns_lex_least (by decide)

/-! ### Claim C7: fetch errors are non-fatal -/

/-- C7: when the fetch of a URL fails, `visit_url` catches the error: the
queue is unchanged (the URL is neither re-enqueued nor retried and no links
are extracted), the content hashes are unchanged, and the URL stays a member
of the visited set after the visit. -/
theorem c7_fetch_error_nonfatal (h : String → String)
    (fetch : String → Option String) (anchors : String → List String)
    (cfg : Config) (st : CrawlState) (u : String)
    (hf : fetch u = none) :
    (visit_url h fetch anchors cfg st (PyVal.s u)).queue = st.queue ∧
    (visit_url h fetch anchors cfg st (PyVal.s u)).hashes = st.hashes ∧
    PyVal.s u ∈ (visit_url h fetch anchors cfg st (PyVal.s u)).visited := by
  have hfi : fetchItem fetch (PyVal.s u) = none := by
    rw [show fetchItem fetch (PyVal.s u) = fetch u from rfl, hf]
  unfold visit_url
  rw [hfi]
  split_ifs with hmem
  · exact ⟨rfl, rfl, hmem⟩
  · exact ⟨rfl, rfl, List.mem_append_right _ (List.mem_singleton_self _)⟩

/-- C7 witness: a failing fetch of the seed leaves an otherwise empty state
untouched except for the visited mark. -/
theorem c7_witness :
    (visit_url (fun s => s) (fun _ => none) (fun _ => [])
        (mkConfig ("https://example.com") []) ⟨[], [], []⟩
        (PyVal.s ("https://example.com"))).queue = [] ∧
    (visit_url (fun s => s) (fun _ => none) (fun _ => [])
        (mkConfig ("https://example.com") []) ⟨[], [], []⟩
        (PyVal.s ("https://example.com"))).hashes = [] ∧
    PyVal.s ("https://example.com") ∈
      (visit_url (fun s => s) (fun _ => none) (fun _ => [])
        (mkConfig ("https://example.com") []) ⟨[], [], []⟩
        (PyVal.s ("https://example.com"))).visited :=
  c7_fetch_error_nonfatal _ _ _ _ _ _ rfl

/-! ### Claim C10: the seed bypasses the exclusion check -/

/-- C10: right after construction the queue holds exactly one entry — the
seed at priority 0.5 — whatever the exclusion patterns are; a seed that
matches a configured exclusion pattern is still enqueued, and the worker
dequeues and processes it (recording the dequeued entry in the visited
set). -/
theorem c10_seed_enqueued_unconditionally (seed : String) :
    (initState seed).queue = [(half, seed)] ∧
    (initState seed).visited = [] ∧
    should_visit ["login"] ("https://example.com/login") = false ∧
    (initState ("https://example.com/login")).queue =
      [(half, "https://example.com/login")] ∧
    PyVal.pair half ("https://example.com/login") ∈
      (crawl (fun s => s) (fun _ => none) (fun _ => [])
        ("https://example.com/login") ["login"] 1).visited :=
  ⟨rfl, rfl, by decide, rfl, by decide⟩

/-! ### Claim C5: the domain filter -/

/-- C5: `is_same_domain` is true iff the URL's netloc equals the base domain
exactly (a subdomain does not match), and a URL whose host differs from the
seed's host is never in the queue and never recorded in the visited set —
neither as a bare string nor inside a dequeued `(priority, url)` tuple —
after a crawl of any length. -/
theorem c5_cross_domain_never_stored (h : String → String)
    (fetch : String → Option String) (anchors : String → List String)
    (seed : String) (pats : List String) (fuel : Nat) (url u : String)
    (hu : netloc u ≠ netloc seed) :
    (is_same_domain (netloc seed) url = true ↔ netloc url = netloc seed) ∧
    is_same_domain ("example.com") ("https://sub.example.com") = false ∧
    u ∉ queueUrls (crawl h fetch anchors seed pats fuel).queue ∧
    (∀ p, PyVal.pair p u ∉ (crawl h fetch anchors seed pats fuel).visited) ∧
    PyVal.s u ∉ (crawl h fetch anchors seed pats fuel).visited := by
  have hgood : GoodState (fun v => is_same_domain (netloc seed) v)
      (crawl h fetch anchors seed pats fuel) := by
    unfold crawl
    apply workerLoop_good
    · intro v hsame _
      exact hsame
    · refine ⟨?_, ?_, ?_⟩
      · intro v hv
        simp only [initState, queueUrls, List.map_cons, List.map_nil,
          List.mem_singleton] at hv
        subst hv
        simp [is_same_domain]
      · intro q v hv
        simp [initState] at hv
      · intro v hv
        simp [initState] at hv
  obtain ⟨hq, hp, hs⟩ := hgood
  have hG : ¬ is_same_domain (netloc seed) u = true := by
    simp only [is_same_domain, beq_iff_eq]
    exact hu
  refine ⟨?_, by decide, ?_, ?_, ?_⟩
  · simp [is_same_domain]
  · intro hmem
    exact hG (hq u hmem)
  · intro q hmem
    exact hG (hp q u hmem)
  · intro hmem
    exact hG (hs u hmem)

/-- C5 witness: with seed `https://example.com`, the foreign host
`https://external.com/x` never appears in the state of a finished crawl. -/
theorem c5_witness :
    ((is_same_domain (netloc ("https://example.com"))
        ("https://example.com/about") = true ↔
      netloc ("https://example.com/about") = netloc ("https://example.com")) ∧
    is_same_domain ("example.com") ("https://sub.example.com") = false ∧
    "https://external.com/x" ∉ queueUrls (crawl (fun s => s) (fun _ => none)
      (fun _ => []) ("https://example.com") [] 2).queue ∧
    (∀ p, PyVal.pair p ("https://external.com/x") ∉
      (crawl (fun s => s) (fun _ => none) (fun _ => [])
        ("https://example.com") [] 2).visited) ∧
    PyVal.s ("https://external.com/x") ∉
      (crawl (fun s => s) (fun _ => none) (fun _ => [])
        ("https://example.com") [] 2).visited) :=
  c5_cross_domain_never_stored _ _ _ _ _ _ _ _ (by decide)

/-! ### Claim C6: the exclusion filter -/

/-- C6: a candidate link is kept by `extract_links` iff it is same-domain
and no exclusion pattern matches it; and provided the seed itself is not
excluded, a URL matched by a configured exclusion pattern is never enqueued
during a crawl and never processed from the queue. -/
theorem c6_excluded_never_enqueued (h : String → String)
    (fetch : String → Option String) (anchors : String → List String)
    (cfg : Config) (b : String) (hrefs : List String) (v : String)
    (seed : String) (pats : List String) (fuel : Nat) (u : String)
    (hseed : should_visit pats seed = true)
    (hu : should_visit pats u = false) :
    (v ∈ extract_links cfg b hrefs ↔
      (v ∈ hrefs.map (urljoin b) ∧ is_same_domain cfg.base_domain v = true ∧
        should_visit cfg.exclude_patterns v = true)) ∧
    u ∉ queueUrls (crawl h fetch anchors seed pats fuel).queue ∧
    (∀ p, PyVal.pair p u ∉ (crawl h fetch anchors seed pats fuel).visited) ∧
    PyVal.s u ∉ (crawl h fetch anchors seed pats fuel).visited := by
  have hgood : GoodState (fun w => should_visit pats w)
      (crawl h fetch anchors seed pats fuel) := by
    unfold crawl
    apply workerLoop_good
    · intro w _ hvisit
      exact hvisit
    · refine ⟨?_, ?_, ?_⟩
      · intro w hw
        simp only [initState, queueUrls, List.map_cons, List.map_nil,
          List.mem_singleton] at hw
        subst hw
        exact hseed
      · intro q w hw
        simp [initState] at hw
      · intro w hw
        simp [initState] at hw
  obtain ⟨hq, hp, hs⟩ := hgood
  have hG : ¬ should_visit pats u = true := by
    rw [hu]
    exact Bool.false_ne_true
  refine ⟨mem_extract_links cfg b hrefs v, ?_, ?_, ?_⟩
  · intro hmem
    exact hG (hq u hmem)
  · intro q hmem
    exact hG (hp q u hmem)
  · intro hmem
    exact hG (hs u hmem)

/-- C6 witness: with pattern `login` and seed `https://example.com`, the URL
`https://example.com/login` is never enqueued and never processed. -/
theorem c6_witness :
    (("https://example.com/about" ∈
        extract_links (mkConfig ("https://example.com") ["login"])
          ("https://example.com") ["/about"] ↔
      ("https://example.com/about" ∈
          ["/about"].map (urljoin ("https://example.com")) ∧
        is_same_domain (mkConfig ("https://example.com") ["login"]).base_domain
          ("https://example.com/about") = true ∧
        should_visit (mkConfig ("https://example.com") ["login"]).exclude_patterns
          ("https://example.com/about") = true)) ∧
    "https://example.com/login" ∉ queueUrls (crawl (fun s => s) (fun _ => none)
      (fun _ => []) ("https://example.com") ["login"] 2).queue ∧
    (∀ p, PyVal.pair p ("https://example.com/login") ∉
      (crawl (fun s => s) (fun _ => none) (fun _ => [])
        ("https://example.com") ["login"] 2).visited) ∧
    PyVal.s ("https://example.com/login") ∉
      (crawl (fun s => s) (fun _ => none) (fun _ => [])
        ("https://example.com") ["login"] 2).visited) :=
  c6_excluded_never_enqueued _ _ _ _ _ _ _ _ _ _ _ (by decide) (by decide)

/-! ### Claim C4: what the worker actually marks as visited -/

/-- C4 (code bug): `worker` passes the whole dequeued `(priority, url)` tuple
from `url_queue.get()` to `visit_url`, so the tuple — not the URL string —
is what gets added to the visited set before the (failing) fetch; after the
seed's queue entry is processed, the URL itself is not a member of the
visited set. -/
theorem c4_worker_marks_tuple_not_url :
    PyVal.pair half ("https://monzo.com/") ∈
      (crawl (fun s => s) (fun _ => none) (fun _ => [])
        ("https://monzo.com/") [] 1).visited ∧
    PyVal.s ("https://monzo.com/") ∉
      (crawl (fun s => s) (fun _ => none) (fun _ => [])
        ("https://monzo.com/") [] 1).visited := by
  decide

/-! ### Claim C8: the two-page cycle -/

/-- Page cycle used by claim C8: page A links to B and page B links to A. -/
def siteA : String := "https://site.test/a"

/-- The second page of the C8 cycle. -/
def siteB : String := "https://site.test/b"

/-- Fetch oracle for the C8 cycle: both pages exist and respond. -/
def fetchAB : String → Option String :=
  fun u => if u = siteA then some ("PAGE-A")
    else if u = siteB then some ("PAGE-B") else none

/-- Anchor oracle for the C8 cycle: A's page links to B, B's page to A. -/
def anchorsAB : String → List String :=
  fun c => if c = "PAGE-A" then [siteB]
    else if c = "PAGE-B" then [siteA] else []

/-- C8 (code bug): on the finite cycle A ↔ B the crawl does terminate — the
queue drains and extra fuel changes nothing — but B is never visited in any
form and A is recorded only as the dequeued tuple: the worker hands the
tuple to `requests.get`, so the fetch of A fails, and even a successful
fetch would extract no links because `is_duplicate_content` is always
true.  The claim that each of A and B is visited exactly once fails. -/
theorem c8_cycle_visits_only_seed_tuple :
    (crawl (fun s => s) fetchAB anchorsAB siteA [] 5).queue = [] ∧
    (crawl (fun s => s) fetchAB anchorsAB siteA [] 5).visited =
      [PyVal.pair half siteA] ∧
    PyVal.s siteB ∉ (crawl (fun s => s) fetchAB anchorsAB siteA [] 5).visited ∧
    PyVal.s siteA ∉ (crawl (fun s => s) fetchAB anchorsAB siteA [] 5).visited ∧
    crawl (fun s => s) fetchAB anchorsAB siteA [] 6 =
      crawl (fun s => s) fetchAB anchorsAB siteA [] 5 := by
  refine ⟨by decide, by decide, by decide, by decide, rfl⟩

end Crawler
